import Mathlib

/-!
Verification of the minimal todo application (`src/app/page.tsx`).

The component keeps an in-memory list of tasks, mirrors it to a single
local-storage key, and exposes four mutations (add, toggle, delete,
clear-completed) plus a derived filtered view.  Below is a shallow
embedding of the data model and of every operation the testable
properties mention, followed by theorems settling those properties.
-/

namespace TodoApp

/-- The `Todo` interface: `id`, `text`, `completed`, `createdAt`.
Timestamps (milliseconds since epoch) are modelled as integers. -/
structure Todo where
  id : String
  text : String
  completed : Bool
  createdAt : Int
deriving DecidableEq

/-- The `Filter` union type: `"all" | "active" | "completed"`. -/
inductive Filter where
  | all
  | active
  | completed
deriving DecidableEq

/-- The component state touched by the mutations: the task list
(`todos`), the input field (`text`) and the active filter. -/
structure AppState where
  todos : List Todo
  text : String
  filter : Filter
deriving DecidableEq

/-- A JSON value as produced by `JSON.parse`: null, booleans, numbers,
strings, arrays and objects (objects as ordered key/value lists). -/
inductive JVal where
  | jnull
  | jbool (b : Bool)
  | jnum (n : Int)
  | jstr (s : String)
  | jarr (elems : List JVal)
  | jobj (fields : List (String × JVal))

/-- Property lookup on a parsed JSON object.  `JSON.parse` keeps the
last occurrence of a duplicated key, hence the lookup prefers later
fields. -/
def jlookup (fields : List (String × JVal)) (key : String) : Option JVal :=
  match fields with
  | [] => none
  | (k, v) :: rest =>
    match jlookup rest key with
    | some w => some w
    | none => if k = key then some v else none

/-- The filter callback of `loadTodos`:
`typeof todo.id === "string" && typeof todo.text === "string" &&
typeof todo.completed === "boolean" && typeof todo.createdAt === "number"`.
Property access on `null` throws a `TypeError` (modelled as `.error ()`);
on any other non-object value it yields `undefined`, so the `typeof`
test is `false`. -/
def todoCheck (v : JVal) : Except Unit Bool :=
  match v with
  | .jnull => .error ()
  | .jobj fs =>
    .ok ((match jlookup fs "id" with | some (.jstr _) => true | _ => false)
      && (match jlookup fs "text" with | some (.jstr _) => true | _ => false)
      && (match jlookup fs "completed" with | some (.jbool _) => true | _ => false)
      && (match jlookup fs "createdAt" with | some (.jnum _) => true | _ => false))
  | _ => .ok false

/-- `Array.prototype.filter` with a callback that may throw: stops at
the first exception. -/
def filterE (xs : List JVal) : Except Unit (List JVal) :=
  match xs with
  | [] => .ok []
  | v :: rest => do
    let b ← todoCheck v
    let tail ← filterE rest
    pure (if b then v :: tail else tail)

/-- The pure content of the filter callback, defined only on values
where property access cannot throw (i.e. everything except `null`). -/
def isWellTypedTodo (v : JVal) : Bool :=
  match v with
  | .jobj fs =>
    (match jlookup fs "id" with | some (.jstr _) => true | _ => false)
      && (match jlookup fs "text" with | some (.jstr _) => true | _ => false)
      && (match jlookup fs "completed" with | some (.jbool _) => true | _ => false)
      && (match jlookup fs "createdAt" with | some (.jnum _) => true | _ => false)
  | _ => false

/-- The `as Todo[]` cast: a JSON element that passed the filter is used
directly as a `Todo`, reading its four fields.  The fallback branches
are unreachable for well-typed elements. -/
def toTodo (v : JVal) : Todo :=
  match v with
  | .jobj fs =>
    { id := match jlookup fs "id" with | some (.jstr s) => s | _ => ""
      text := match jlookup fs "text" with | some (.jstr s) => s | _ => ""
      completed := match jlookup fs "completed" with | some (.jbool b) => b | _ => false
      createdAt := match jlookup fs "createdAt" with | some (.jnum n) => n | _ => 0 }
  | _ => { id := "", text := "", completed := false, createdAt := 0 }

/-- What `localStorage.getItem(STORAGE_KEY)` followed by `JSON.parse`
can yield: no stored value (`null`/empty, the `!stored` branch), a
string `JSON.parse` rejects (the `catch` branch), or a parsed value. -/
inductive Stored where
  | absent
  | malformed
  | value (v : JVal)

/-- `loadTodos`: returns `[]` without a browser environment
(`typeof window === "undefined"`), on missing or unparsable storage, and
on a non-array top level; otherwise filters the array elements by the
`typeof` checks, returning `[]` if the filter throws (null element). -/
def loadTodos (hasWindow : Bool) (stored : Stored) : List Todo :=
  if hasWindow = false then []
  else
    match stored with
    | .absent => []
    | .malformed => []
    | .value v =>
      match v with
      | .jarr elems =>
        match filterE elems with
        | .error _ => []
        | .ok kept => kept.map toTodo
      | _ => []

/-- `JSON.stringify` of one task. -/
def encodeTodo (t : Todo) : JVal :=
  .jobj [("id", .jstr t.id), ("text", .jstr t.text),
         ("completed", .jbool t.completed), ("createdAt", .jnum t.createdAt)]

/-- `JSON.stringify` of the whole list. -/
def encodeTodos (L : List Todo) : JVal :=
  .jarr (L.map encodeTodo)

/-- The persistence effect (`useEffect` writing `STORAGE_KEY`): skipped
entirely without a browser environment, otherwise overwrites the stored
blob with the serialized list. -/
def saveTodos (hasWindow : Bool) (L : List Todo) : Option Stored :=
  if hasWindow = false then none else some (.value (encodeTodos L))

/-- `String.prototype.trim`: removes whitespace from both ends of the
string, modelled directly on the character list. -/
def trimString (s : String) : String :=
  ⟨((s.data.dropWhile Char.isWhitespace).reverse.dropWhile Char.isWhitespace).reverse⟩

/-- `handleSubmit`: trims the input; empty trimmed input is a no-op
(early return, input not cleared); otherwise prepends a new task with
the freshly generated id and the current time, and clears the input.
The id generator and clock are oracles passed as arguments. -/
def handleSubmit (freshId : String) (now : Int) (st : AppState) : AppState :=
  let trimmed := trimString st.text
  if trimmed = "" then st
  else { st with
    todos := { id := freshId, text := trimmed, completed := false, createdAt := now } :: st.todos
    text := "" }

/-- `toggleTodo`: maps over the list, flipping `completed` on tasks
whose id matches and spreading the rest unchanged. -/
def toggleTodo (i : String) (L : List Todo) : List Todo :=
  L.map fun t => if t.id = i then { t with completed := !t.completed } else t

/-- `deleteTodo`: keeps the tasks whose id differs (`todo.id !== id`). -/
def deleteTodo (i : String) (L : List Todo) : List Todo :=
  L.filter fun t => t.id != i

/-- `clearCompleted`: keeps the tasks with `completed` false. -/
def clearCompleted (L : List Todo) : List Todo :=
  L.filter fun t => !t.completed

/-- `filteredTodos`: the derived view for the active filter. -/
def filteredTodos (f : Filter) (L : List Todo) : List Todo :=
  match f with
  | .active => L.filter fun t => !t.completed
  | .completed => L.filter fun t => t.completed
  | .all => L

/-- The id-uniqueness invariant claimed by the spec. -/
abbrev idsNodup (L : List Todo) : Prop :=
  (L.map Todo.id).Nodup

/-! ### Helper lemmas -/

/-- Count of an element in a boolean filter. -/
theorem count_filter_bool {p : Todo → Bool} (L : List Todo) (t : Todo) :
    (L.filter p).count t = if p t then L.count t else 0 := by
  induction L with
  | nil => simp
  | cons a rest ih =>
    by_cases hp : p a
    · by_cases ha : a = t
      · subst ha
        simp [List.filter_cons, hp, List.count_cons, ih]
      · simp only [List.filter_cons, hp, if_pos]
        rw [List.count_cons_of_ne (Ne.symm ha), ih,
          List.count_cons_of_ne (Ne.symm ha)]
    · by_cases ha : a = t
      · subst ha
        simp [List.filter_cons, hp, List.count_cons, ih]
      · simp only [List.filter_cons, hp]
        rw [if_neg (by simp [hp]), ih,
          List.count_cons_of_ne (Ne.symm ha)]

/-! ### Theorems about the claims -/

/-- C1: `clearCompleted L` is a subsequence of `L` (original relative
order) containing exactly — with multiplicity — the elements of `L`
whose `completed` field is false. -/
theorem clearCompleted_exact (L : List Todo) :
    (clearCompleted L).Sublist L ∧
      ∀ t : Todo, (clearCompleted L).count t =
        if t.completed = false then L.count t else 0 := by
  constructor
  · exact List.filter_sublist L
  · intro t
    rw [clearCompleted, count_filter_bool]
    cases h : t.completed <;> simp [h]

/-- C9: without a browser environment, `loadTodos` returns the empty
list for every stored value and the persistence effect writes nothing. -/
theorem environment_guard (stored : Stored) (L : List Todo) :
    loadTodos false stored = [] ∧ saveTodos false L = none :=
  ⟨rfl, rfl⟩

/-- C2: input trimming to empty leaves the state (list and input field)
unchanged; otherwise the new list is the new task consed onto the old
one — so its length is the old length plus one, its first element is the
fresh task, the old elements follow unchanged — and the input clears. -/
theorem handleSubmit_spec (st : AppState) (freshId : String) (now : Int) :
    (trimString st.text = "" → handleSubmit freshId now st = st) ∧
    (trimString st.text ≠ "" →
      (handleSubmit freshId now st).todos =
        { id := freshId, text := trimString st.text, completed := false,
          createdAt := now } :: st.todos ∧
      (handleSubmit freshId now st).todos.length = st.todos.length + 1 ∧
      (handleSubmit freshId now st).text = "" ∧
      (handleSubmit freshId now st).filter = st.filter) := by
  constructor
  · intro h
    simp [handleSubmit, h]
  · intro h
    simp [handleSubmit, h]

/-- Witness for C2 at concrete inputs: whitespace-only input is a no-op,
and " hi " yields the single task with the trimmed text. -/
theorem handleSubmit_spec_witness :
    handleSubmit "id1" 5 ⟨[], "  ", .all⟩ = ⟨[], "  ", .all⟩ ∧
    (handleSubmit "id1" 5 ⟨[], " hi ", .all⟩).todos =
      [{ id := "id1", text := "hi", completed := false, createdAt := 5 }] := by
  refine ⟨(handleSubmit_spec ⟨[], "  ", .all⟩ "id1" 5).1 (by decide), ?_⟩
  have h := ((handleSubmit_spec ⟨[], " hi ", .all⟩ "id1" 5).2 (by decide)).1
  rw [h]
  decide

/-- C3: toggling the same id twice restores the list exactly, and
toggling an id no task carries is the identity. -/
theorem toggleTodo_involutive (i : String) (L : List Todo) :
    toggleTodo i (toggleTodo i L) = L ∧
    ((∀ t ∈ L, t.id ≠ i) → toggleTodo i L = L) := by
  constructor
  · rw [toggleTodo, toggleTodo, List.map_map]
    have hpt : ∀ t : Todo,
        ((fun t : Todo => if t.id = i then { t with completed := !t.completed } else t) ∘
          (fun t : Todo => if t.id = i then { t with completed := !t.completed } else t)) t
          = t := by
      intro t
      cases t with
      | mk tid ttext tc tca =>
        by_cases h : tid = i
        · simp [Function.comp, h, Bool.not_not]
        · simp [Function.comp, h]
    calc L.map _ = L.map id := List.map_congr_left (fun t _ => hpt t)
    _ = L := List.map_id L
  · intro h
    rw [toggleTodo]
    calc L.map _ = L.map id := List.map_congr_left (fun t ht => by simp [h t ht])
    _ = L := List.map_id L

/-- Witness for C3: toggling an absent id on a concrete list is the
identity (the involution half is hypothesis-free). -/
theorem toggleTodo_involutive_witness :
    toggleTodo "b" [⟨"a", "x", false, 0⟩] = [⟨"a", "x", false, 0⟩] :=
  (toggleTodo_involutive "b" [⟨"a", "x", false, 0⟩]).2 (by decide)

/-- C10: toggling preserves the list's length and order, every task is
related positionally to its image with the same `id`, `text` and
`createdAt`, and a task whose id differs from the toggled one is
entirely unchanged. -/
theorem toggleTodo_frame (i : String) (L : List Todo) :
    (toggleTodo i L).length = L.length ∧
    List.Forall₂ (fun a b => b.id = a.id ∧ b.text = a.text ∧
      b.createdAt = a.createdAt ∧ (a.id ≠ i → b = a)) L (toggleTodo i L) := by
  constructor
  · simp [toggleTodo]
  · induction L with
    | nil => exact List.Forall₂.nil
    | cons a rest ih =>
      refine List.Forall₂.cons ?_ ih
      by_cases h : a.id = i
      · simp [h]
      · simp [h]

/-- C8: the active view is exactly (as a subsequence, with
multiplicity) the not-completed part of the list, the completed view
exactly the completed part, and the all view is the list itself. -/
theorem filteredTodos_spec (L : List Todo) :
    ((filteredTodos .active L).Sublist L ∧
      ∀ t : Todo, (filteredTodos .active L).count t =
        if t.completed = false then L.count t else 0) ∧
    ((filteredTodos .completed L).Sublist L ∧
      ∀ t : Todo, (filteredTodos .completed L).count t =
        if t.completed = true then L.count t else 0) ∧
    filteredTodos .all L = L := by
  refine ⟨⟨List.filter_sublist L, ?_⟩, ⟨List.filter_sublist L, ?_⟩, rfl⟩
  · intro t
    rw [filteredTodos, count_filter_bool]
    cases h : t.completed <;> simp [h]
  · intro t
    rw [filteredTodos, count_filter_bool]

/-- Counterexample to C4 as stated: on a list where two tasks share the
id "a" (the code never rules this out), `deleteTodo "a"` removes both
elements, not at most one. -/
theorem deleteTodo_removes_two :
    ¬ (([⟨"a", "x", false, 0⟩, ⟨"a", "y", false, 0⟩] : List Todo).length ≤
        (deleteTodo "a" [⟨"a", "x", false, 0⟩, ⟨"a", "y", false, 0⟩]).length + 1) := by
  decide

/-- C4 (amended): when the ids of `L` are pairwise distinct, `deleteTodo`
removes at most one element; unconditionally it is idempotent, it is the
identity when no task carries the id, and the survivors are exactly the
tasks of `L` whose id differs. -/
theorem deleteTodo_spec (i : String) (L : List Todo) :
    (idsNodup L → L.length ≤ (deleteTodo i L).length + 1) ∧
    deleteTodo i (deleteTodo i L) = deleteTodo i L ∧
    ((∀ t ∈ L, t.id ≠ i) → deleteTodo i L = L) ∧
    (∀ t ∈ deleteTodo i L, t ∈ L ∧ t.id ≠ i) ∧
    (∀ t ∈ L, t.id ≠ i → t ∈ deleteTodo i L) := by
  have habsent : ∀ M : List Todo, (∀ t ∈ M, t.id ≠ i) → deleteTodo i M = M := by
    intro M hM
    apply List.filter_eq_self.mpr
    intro t ht
    exact bne_iff_ne.mpr (hM t ht)
  refine ⟨?_, ?_, habsent L, ?_, ?_⟩
  · induction L with
    | nil => intro _; simp [deleteTodo]
    | cons a rest ih =>
      intro h
      simp only [idsNodup, List.map_cons, List.nodup_cons] at h
      by_cases ha : a.id = i
      · have hrest : deleteTodo i rest = rest := by
          apply habsent
          intro t ht he
          exact h.1 (by rw [ha, ← he]; exact List.mem_map_of_mem Todo.id ht)
        have hdel : deleteTodo i (a :: rest) = rest := by
          rw [deleteTodo, List.filter_cons, if_neg (by simp [ha])]
          exact hrest
        rw [hdel]
        simp
      · have hdel : deleteTodo i (a :: rest) = a :: deleteTodo i rest := by
          rw [deleteTodo, List.filter_cons, if_pos (by simpa [bne_iff_ne] using ha)]
          rfl
        have := ih h.2
        rw [hdel]
        simp only [List.length_cons]
        omega
  · apply List.filter_eq_self.mpr
    intro t ht
    exact (List.mem_filter.mp ht).2
  · intro t ht
    have := List.mem_filter.mp ht
    exact ⟨this.1, bne_iff_ne.mp this.2⟩
  · intro t ht hne
    exact List.mem_filter.mpr ⟨ht, bne_iff_ne.mpr hne⟩

/-- Witness for C4 (amended) at concrete inputs: on a duplicate-free
list the length drops by at most one, and deleting an absent id is the
identity. -/
theorem deleteTodo_spec_witness :
    ([⟨"a", "x", false, 0⟩] : List Todo).length ≤
      (deleteTodo "a" [⟨"a", "x", false, 0⟩]).length + 1 ∧
    deleteTodo "b" [⟨"a", "x", false, 0⟩] = [⟨"a", "x", false, 0⟩] :=
  ⟨(deleteTodo_spec "a" [⟨"a", "x", false, 0⟩]).1 (by decide),
   (deleteTodo_spec "b" [⟨"a", "x", false, 0⟩]).2.2.1 (by decide)⟩

/-- The `typeof` filter accepts every serialized task. -/
theorem todoCheck_encodeTodo (t : Todo) : todoCheck (encodeTodo t) = .ok true := by
  cases t
  rfl

/-- Reading the four fields back from a serialized task restores it. -/
theorem toTodo_encodeTodo (t : Todo) : toTodo (encodeTodo t) = t := by
  cases t
  rfl

/-- Filtering a list of serialized tasks throws nothing and keeps all. -/
theorem filterE_encode (L : List Todo) :
    filterE (L.map encodeTodo) = .ok (L.map encodeTodo) := by
  induction L with
  | nil => rfl
  | cons t rest ih =>
    simp [filterE, todoCheck_encodeTodo, ih, Bind.bind, Except.bind, pure, Except.pure]

/-- C5: loading whatever `saveTodos` wrote in a browser environment
reconstructs the original list exactly. -/
theorem load_save_roundtrip (L : List Todo) (s : Stored)
    (h : saveTodos true L = some s) : loadTodos true s = L := by
  have hs : s = .value (encodeTodos L) := by
    have : some (Stored.value (encodeTodos L)) = some s := by
      simpa [saveTodos] using h
    exact (Option.some.inj this).symm
  subst hs
  have h1 : loadTodos true (.value (encodeTodos L)) =
      (match filterE (L.map encodeTodo) with
        | .error _ => ([] : List Todo)
        | .ok kept => kept.map toTodo) := rfl
  rw [h1, filterE_encode]
  show (L.map encodeTodo).map toTodo = L
  rw [List.map_map]
  calc L.map (toTodo ∘ encodeTodo) = L.map id :=
    List.map_congr_left (fun t _ => toTodo_encodeTodo t)
  _ = L := List.map_id L

/-- Witness for C5 at a concrete list. -/
theorem load_save_roundtrip_witness :
    loadTodos true (.value (encodeTodos [⟨"a", "milk", false, 3⟩])) =
      [⟨"a", "milk", false, 3⟩] :=
  load_save_roundtrip [⟨"a", "milk", false, 3⟩]
    (.value (encodeTodos [⟨"a", "milk", false, 3⟩])) rfl

/-- On anything but `null` the filter callback cannot throw and computes
the pure `typeof` predicate. -/
theorem todoCheck_eq_ok (v : JVal) (h : v ≠ .jnull) :
    todoCheck v = .ok (isWellTypedTodo v) := by
  cases v <;> first | rfl | exact absurd rfl h

/-- On an array with no `null` element the filter completes and keeps
exactly the elements passing the `typeof` checks. -/
theorem filterE_no_null (elems : List JVal) (h : ∀ v ∈ elems, v ≠ .jnull) :
    filterE elems = .ok (elems.filter isWellTypedTodo) := by
  induction elems with
  | nil => rfl
  | cons v rest ih =>
    have hv := h v (List.mem_cons_self v rest)
    have ih2 := ih (fun w hw => h w (List.mem_cons_of_mem v hw))
    rw [filterE]
    simp only [todoCheck_eq_ok v hv, ih2, Bind.bind, Except.bind, List.filter_cons]
    by_cases hb : isWellTypedTodo v <;> simp [hb, pure, Except.pure]

/-- Counterexample to C6 as stated: an array holding `null` alongside a
well-typed task does not keep the well-typed element — the property
access `todo.id` on `null` throws inside the filter, the `catch`
swallows it, and the whole load degrades to the empty list. -/
theorem loadTodos_null_element_counterexample :
    loadTodos true (.value (.jarr [.jnull, encodeTodo ⟨"a", "milk", false, 0⟩])) ≠
      [⟨"a", "milk", false, 0⟩] ∧
    loadTodos true (.value (.jarr [.jnull, encodeTodo ⟨"a", "milk", false, 0⟩])) = [] := by
  constructor
  · decide
  · rfl

/-- C6 (amended): missing or unparsable storage and non-array top-level
values load as the empty list; an array none of whose elements is `null`
loads as exactly its well-typed elements in order, the mistyped ones
dropped; an array containing `null` degrades to the empty list. -/
theorem loadTodos_malformed_resilience :
    (∀ hw : Bool, loadTodos hw .malformed = [] ∧ loadTodos hw .absent = []) ∧
    (∀ v : JVal, (∀ xs, v ≠ .jarr xs) → loadTodos true (.value v) = []) ∧
    (∀ elems : List JVal, (∀ v ∈ elems, v ≠ .jnull) →
      loadTodos true (.value (.jarr elems)) =
        (elems.filter isWellTypedTodo).map toTodo) ∧
    (∀ elems : List JVal, .jnull ∈ elems →
      loadTodos true (.value (.jarr elems)) = []) := by
  refine ⟨?_, ?_, ?_, ?_⟩
  · intro hw
    cases hw <;> exact ⟨rfl, rfl⟩
  · intro v hv
    cases v <;> first | rfl | exact absurd rfl (hv _)
  · intro elems h
    have h1 : loadTodos true (.value (.jarr elems)) =
        (match filterE elems with
          | .error _ => ([] : List Todo)
          | .ok kept => kept.map toTodo) := rfl
    rw [h1, filterE_no_null elems h]
  · intro elems h
    have herr : filterE elems = .error () := by
      induction elems with
      | nil => cases h
      | cons v rest ih =>
        rcases List.mem_cons.mp h with hv | hv
        · rw [filterE, ← hv]
          rfl
        · rw [filterE]
          cases hcv : todoCheck v with
          | error e => rfl
          | ok b =>
            simp only [Bind.bind, Except.bind, ih hv]
    have h1 : loadTodos true (.value (.jarr elems)) =
        (match filterE elems with
          | .error _ => ([] : List Todo)
          | .ok kept => kept.map toTodo) := rfl
    rw [h1, herr]

/-- Witness for C6 (amended) at concrete inputs: a non-array top level
loads empty, and a null-free array with one mistyped and one well-typed
element keeps exactly the well-typed one. -/
theorem loadTodos_malformed_resilience_witness :
    loadTodos true (.value (.jnum 7)) = [] ∧
    loadTodos true (.value (.jarr [.jbool true, encodeTodo ⟨"a", "milk", false, 0⟩])) =
      [⟨"a", "milk", false, 0⟩] := by
  constructor
  · exact loadTodos_malformed_resilience.2.1 (.jnum 7) (by intro xs hxs; cases hxs)
  · have h := loadTodos_malformed_resilience.2.2.1
      [.jbool true, encodeTodo ⟨"a", "milk", false, 0⟩]
      (by intro v hv; rcases List.mem_cons.mp hv with h1 | h1
          · rw [h1]; intro he; cases he
          · rcases List.mem_cons.mp h1 with h2 | h2
            · rw [h2]; intro he; cases he
            · cases h2)
    rw [h]
    decide

/-- Counterexample to C7 as stated: loading a stored array whose two
well-typed tasks share the id "a" yields a startup list with duplicate
ids — `loadTodos` never checks uniqueness. -/
theorem load_duplicate_ids_counterexample :
    ¬ idsNodup (loadTodos true (.value (encodeTodos
      [⟨"a", "x", false, 0⟩, ⟨"a", "y", false, 0⟩]))) := by
  decide

/-- C7 (amended): toggle, delete and clear-completed preserve
id-uniqueness, and add preserves it when the freshly generated id does
not already occur; load itself does not enforce it. -/
theorem idsNodup_preserved (i freshId : String) (now : Int)
    (L : List Todo) (st : AppState) :
    (idsNodup L → idsNodup (toggleTodo i L)) ∧
    (idsNodup L → idsNodup (deleteTodo i L)) ∧
    (idsNodup L → idsNodup (clearCompleted L)) ∧
    (idsNodup st.todos → freshId ∉ st.todos.map Todo.id →
      idsNodup (handleSubmit freshId now st).todos) := by
  refine ⟨?_, ?_, ?_, ?_⟩
  · intro h
    have hmap : (toggleTodo i L).map Todo.id = L.map Todo.id := by
      rw [toggleTodo, List.map_map]
      apply List.map_congr_left
      intro t _
      by_cases ht : t.id = i <;> simp [ht]
    rw [idsNodup, hmap]
    exact h
  · intro h
    exact h.sublist ((List.filter_sublist L).map Todo.id)
  · intro h
    exact h.sublist ((List.filter_sublist L).map Todo.id)
  · intro h hfresh
    by_cases ht : trimString st.text = ""
    · rw [handleSubmit]
      simp only [ht, if_pos rfl]
      exact h
    · rw [handleSubmit]
      simp only [ht, if_neg ht]
      exact List.nodup_cons.mpr ⟨hfresh, h⟩

/-- Witness for C7 (amended) at concrete inputs: each operation applied
to a concrete duplicate-free list keeps the ids duplicate-free. -/
theorem idsNodup_preserved_witness :
    idsNodup (toggleTodo "a" [⟨"a", "x", false, 0⟩]) ∧
    idsNodup (handleSubmit "b" 7 ⟨[⟨"a", "x", false, 0⟩], "hi", .all⟩).todos :=
  ⟨(idsNodup_preserved "a" "b" 0 [⟨"a", "x", false, 0⟩] ⟨[], "", .all⟩).1 (by decide),
   (idsNodup_preserved "a" "b" 7 [] ⟨[⟨"a", "x", false, 0⟩], "hi", .all⟩).2.2.2
     (by decide) (by decide)⟩

end TodoApp
